import Mathlib

/-
Verification development for the thread scheduling subsystem of
src/threads/thread.c (a Pintos-style preemptive kernel core).

The embedding is a state machine over an explicit kernel state `KState`:
intrusive lists become lists of thread ids (`Nat`), the table of thread
control blocks becomes a function `Nat → Thread`, and every operation of
thread.c becomes a pure state transformer.  The `list_entry` macro is the
identity under this embedding.  `ASSERT`s of the source are modelled as
hypotheses of the theorems that need them.  The generic list library
(list_insert_ordered, list_sort, ...) is not part of src/, so those two
functions are modelled from the spec, as noted on their definitions.
-/

set_option maxHeartbeats 1000000

namespace PintosThread

/-- Thread status, from enum thread_status used by thread.c. -/
inductive Status where
  | RUNNING
  | READY
  | BLOCKED
  | DYING
deriving DecidableEq, Repr

/-- Sentinel tid ((tid_t) -1) returned by thread_create on allocation failure. -/
def TID_ERROR : Int := -1

/-- TIME_SLICE from thread.c: number of timer ticks to give each thread. -/
def TIME_SLICE : Nat := 4

/-- Thread control block: the fields of struct thread that the scheduler
core reads or writes.  The name, the saved interrupt frame and the magic
sentinel play no role in the verified properties and are omitted;
donations holds the donor thread ids (the donation_elem list). -/
structure Thread where
  tid : Int := 0
  status : Status := .BLOCKED
  priority : Int := 0
  init_priority : Int := 0
  wait_on_lock : Option Nat := none
  wakeup : Int := 0
  donations : List Nat := []
  pml4 : Option Nat := none
deriving DecidableEq, Repr

/-- The global scheduler state of thread.c: the TCB table, the static lists
(ready_list, sleep_list, destruction_req), the running/idle/initial thread
ids, lock holders (lock id → holder thread id, read by donate_priority),
the tid counter, the tick statistics, the interrupt level (true = on), the
intr_yield_on_return flag and the multiset of pages already handed back to
palloc_free_page (freed), recorded so that deferred destruction is
observable. -/
structure KState where
  thr : Nat → Thread
  running : Nat
  idle : Nat
  initial : Nat
  ready_list : List Nat
  sleep_list : List Nat
  destruction_req : List Nat
  lockHolder : Nat → Nat
  next_tid : Int
  idle_ticks : Int
  kernel_ticks : Int
  user_ticks : Int
  thread_ticks : Nat
  intr_level : Bool
  yield_on_return : Bool
  freed : List Nat

/-- Update a single thread's control block. -/
def updThr (s : KState) (t : Nat) (f : Thread → Thread) : KState :=
  { s with thr := fun x => if x = t then f (s.thr x) else s.thr x }

/-- Comparator thread_compare_priority from thread.c, as it behaves on
lists threaded through the elem member (ready-queue insertion in
thread_unblock and thread_yield, the front read in
thread_test_max_priority): there list_entry(..., elem) recovers exactly
the containing thread, so under the embedding — where list elements are
thread ids and list_entry is the identity — the comparison is
ta->priority > tb->priority.  The source's preliminary list_empty checks
reinterpret the two thread pointers themselves as lists; that byte-level
pun has no counterpart in the embedding and is omitted here (its effect
is the subject of a separate claim).  This definition is NOT used for the
donation-list sort: there the source hands donation_elem-threaded nodes
to this comparator, whose list_entry(..., elem) then reads mis-offset
bytes; refresh_priority below models that with an oracle comparator. -/
def thread_compare_priority (s : KState) (a b : Nat) : Bool :=
  decide ((s.thr b).priority < (s.thr a).priority)

/-- Modelled from the spec: the list library's list_insert_ordered (the
library is not under src/).  Per the spec, insertion uses the comparator
as key "in strictly descending order with stable ties (first-in before
later-in at equal priority)": the new element is placed immediately before
the first element e with less x e, hence after every existing element
that does not compare below x. -/
def list_insert_ordered (less : Nat → Nat → Bool) (x : Nat) : List Nat → List Nat
  | [] => [x]
  | y :: ys => if less x y then x :: y :: ys else y :: list_insert_ordered less x ys

/-- Modelled from the spec: the list library's list_sort (not under src/),
"sorts it by descending priority" with a stable comparator sort; realised
as a stable insertion sort (elements are taken in input order and each is
inserted after the existing elements that do not compare below it). -/
def list_sort (less : Nat → Nat → Bool) (l : List Nat) : List Nat :=
  l.foldl (fun acc x => list_insert_ordered less x acc) []

/-- thread_unblock from thread.c: saves the interrupt level, disables
interrupts, inserts t into ready_list in comparator order, sets t READY,
and restores the saved interrupt level.  The ASSERT(t->status == BLOCKED)
is a precondition of the theorems. -/
def thread_unblock (s : KState) (t : Nat) : KState :=
  let old := s.intr_level
  let s1 : KState := { s with intr_level := false }
  let s2 : KState :=
    { s1 with ready_list := list_insert_ordered (thread_compare_priority s1) t s1.ready_list }
  let s3 : KState := updThr s2 t (fun th => { th with status := .READY })
  { s3 with intr_level := old }

/-- next_thread_to_run from thread.c: pops the front of ready_list, or
yields the idle thread when the ready list is empty. -/
def next_thread_to_run (s : KState) : Nat × List Nat :=
  match s.ready_list with
  | [] => (s.idle, [])
  | t :: rest => (t, rest)

/-- schedule from thread.c: picks the next thread, marks it RUNNING,
starts a new time slice, and if the outgoing thread differs, queues it on
destruction_req when it is DYING (and not the initial thread) and switches
to the next thread (thread_launch is modelled by updating running). -/
def schedule (s : KState) : KState :=
  let curr := s.running
  let nx := next_thread_to_run s
  let s1 : KState := { s with ready_list := nx.2 }
  let s2 : KState := updThr s1 nx.1 (fun th => { th with status := .RUNNING })
  let s3 : KState := { s2 with thread_ticks := 0 }
  if curr ≠ nx.1 then
    let s4 : KState :=
      if (s3.thr curr).status = .DYING ∧ curr ≠ s3.initial then
        { s3 with destruction_req := s3.destruction_req ++ [curr] }
      else s3
    { s4 with running := nx.1 }
  else s3

/-- do_schedule from thread.c: frees every page queued on destruction_req
(palloc_free_page is modelled by moving the page to freed), sets the
current thread's status to the argument, then calls schedule. -/
def do_schedule (s : KState) (st : Status) : KState :=
  let s1 : KState := { s with freed := s.freed ++ s.destruction_req, destruction_req := [] }
  let s2 : KState := updThr s1 s1.running (fun th => { th with status := st })
  schedule s2

/-- thread_block from thread.c: sets the current thread BLOCKED and calls
schedule directly (not do_schedule). -/
def thread_block (s : KState) : KState :=
  schedule (updThr s s.running (fun th => { th with status := .BLOCKED }))

/-- thread_yield from thread.c: unless current is the idle thread, inserts
it into ready_list in comparator order, then do_schedule(THREAD_READY);
the saved interrupt level is restored on return. -/
def thread_yield (s : KState) : KState :=
  let cur := s.running
  let old := s.intr_level
  let s1 : KState := { s with intr_level := false }
  let s2 : KState :=
    if cur ≠ s1.idle then
      { s1 with ready_list := list_insert_ordered (thread_compare_priority s1) cur s1.ready_list }
    else s1
  let s3 := do_schedule s2 .READY
  { s3 with intr_level := old }

/-- thread_test_max_priority from thread.c: if ready_list is non-empty and
its front has a higher priority than the current thread, yield. -/
def thread_test_max_priority (s : KState) : KState :=
  match s.ready_list with
  | [] => s
  | f :: _ =>
    if (s.thr s.running).priority < (s.thr f).priority then thread_yield s else s

/-- thread_tick from thread.c (USERPROG build): bumps exactly one of the
three per-class counters, increments the 32-bit unsigned thread_ticks
(hence the mod 2^32), and when the incremented value reaches TIME_SLICE
requests a deferred yield (intr_yield_on_return is modelled by setting the
yield_on_return flag). -/
def thread_tick (s : KState) : KState :=
  let t := s.running
  let s1 : KState :=
    if t = s.idle then { s with idle_ticks := s.idle_ticks + 1 }
    else if (s.thr t).pml4 ≠ none then { s with user_ticks := s.user_ticks + 1 }
    else { s with kernel_ticks := s.kernel_ticks + 1 }
  let tt := (s1.thread_ticks + 1) % 4294967296
  let s2 : KState := { s1 with thread_ticks := tt }
  if TIME_SLICE ≤ tt then { s2 with yield_on_return := true } else s2

/-- The scan loop of thread_awake: walks the given portion of the sleep
list; an expired entry is removed (it does not reappear in the first
component) and unblocked, others are kept.  thread_unblock neither reads
nor writes sleep_list, so threading the whole state through while the
final sleep list is rebuilt in the first component is faithful to the
in-place list_remove of the source. -/
def awakeGo (now : Int) : List Nat → KState → List Nat × KState
  | [], s => ([], s)
  | t :: rest, s =>
    if (s.thr t).wakeup ≤ now then
      awakeGo now rest (thread_unblock s t)
    else
      let r := awakeGo now rest s
      (t :: r.1, r.2)

/-- thread_awake from thread.c: single scan of sleep_list unblocking every
thread whose wakeup tick has passed. -/
def thread_awake (s : KState) (now : Int) : KState :=
  let r := awakeGo now s.sleep_list s
  { r.2 with sleep_list := r.1 }

/-- The loop of donate_priority from thread.c: pr is the donor's priority
read once at entry; at each of at most 8 steps, stop if the current
thread waits on no lock, otherwise move to that lock's holder and assign
it pr. -/
def donateLoop (pr : Int) : Nat → Nat → KState → KState
  | 0, _, s => s
  | Nat.succ fuel, t, s =>
    match (s.thr t).wait_on_lock with
    | none => s
    | some l =>
      let h := s.lockHolder l
      donateLoop pr fuel h (updThr s h (fun th => { th with priority := pr }))

/-- donate_priority from thread.c. -/
def donate_priority (s : KState) : KState :=
  donateLoop ((s.thr s.running).priority) 8 s.running s

/-- The sequence of holders visited by the donate_priority walk started at
t with the given fuel, read off the initial state. -/
def donChain (s : KState) : Nat → Nat → List Nat
  | 0, _ => []
  | Nat.succ fuel, t =>
    match (s.thr t).wait_on_lock with
    | none => []
    | some l => s.lockHolder l :: donChain s fuel (s.lockHolder l)

/-- refresh_priority from thread.c: reset the current thread's priority to
init_priority; if donations is non-empty, sort it (list_sort mutates the
list in place, modelled by storing the sorted list back into the
donations field), then raise the priority to the front donor's priority
when that is greater.

The donations list is threaded through donation_elem: remove_with_lock
and the list_front read below recover its entries with
list_entry(..., donation_elem) (thread.c:510, 530).  The sort, however,
is list_sort(&t->donations, thread_compare_priority, NULL)
(thread.c:527), and thread_compare_priority recovers the nodes with
list_entry(..., elem) (thread.c:459-460) — the wrong link member.  Each
comparison therefore reads bytes at offset
offsetof(donation_elem) - offsetof(elem) away from the donor's TCB,
which under every layout of struct thread is not the donor's priority
field; what value it yields depends on the layout (thread.h is not under
src/) and on the surrounding bytes.  That layout-dependent behavior is
modelled by the oracle parameter misCmp, the comparator's observed
verdict on each pair of donation nodes.  The front read after the sort
uses the correct member and is the identity under the embedding. -/
def refresh_priority (misCmp : Nat → Nat → Bool) (s : KState) : KState :=
  let cur := s.running
  let t := s.thr cur
  let s1 := updThr s cur (fun th => { th with priority := th.init_priority })
  match t.donations with
  | [] => s1
  | _ :: _ =>
    let sorted := list_sort misCmp t.donations
    let s2 := updThr s1 cur (fun th => { th with donations := sorted })
    match sorted with
    | [] => s2
    | mx :: _ =>
      if (s2.thr cur).priority < (s2.thr mx).priority then
        updThr s2 cur (fun th => { th with priority := (s2.thr mx).priority })
      else s2

/-- init_thread from thread.c: basic initialisation of a new BLOCKED
thread (memset zeroes wakeup; name, frame and magic are outside the
model), followed by the tid assignment done in thread_create. -/
def init_thread (priority : Int) (tid : Int) : Thread :=
  { tid := tid, status := .BLOCKED, priority := priority, init_priority := priority,
    wait_on_lock := none, wakeup := 0, donations := [], pml4 := none }

/-- thread_create from thread.c: alloc is the page returned by
palloc_get_page (the allocator is an external collaborator); the page id
doubles as the new thread's id in the TCB table.  On success the new
thread is initialised BLOCKED, given the next tid, unblocked, and then
thread_test_max_priority runs; the pair (returned tid, final state) is
produced.  On allocation failure TID_ERROR is returned with the state
untouched. -/
def thread_create (s : KState) (priority : Int) (alloc : Option Nat) : Int × KState :=
  match alloc with
  | none => (TID_ERROR, s)
  | some p =>
    let tid := s.next_tid
    let s1 : KState :=
      { updThr s p (fun _ => init_thread priority tid) with next_tid := s.next_tid + 1 }
    let s2 := thread_unblock s1 p
    let s3 := thread_test_max_priority s2
    (tid, s3)

/-- The maximum of init and the priorities of the listed donors, the
maximum over an empty donor list being init (specification-side value
used to state the refresh_priority claim). -/
def donorsMax (s : KState) (init : Int) (ds : List Nat) : Int :=
  ds.foldr (fun d m => max ((s.thr d).priority) m) init

/-- The ready list is pairwise ordered by non-increasing priority. -/
def readySorted (s : KState) : Prop :=
  s.ready_list.Pairwise (fun a b => (s.thr b).priority ≤ (s.thr a).priority)

/-- Concrete scheduler state used to witness the theorems: thread 0 is
running and waits on lock 0 held by thread 3, threads 1 and 2 sleep and
donate to thread 0, thread 4 is the idle thread. -/
def thrW : Nat → Thread := fun n =>
  if n = 0 then
    { tid := 1, status := .RUNNING, priority := 31, init_priority := 20,
      wait_on_lock := some 0, donations := [1, 2] }
  else if n = 1 then
    { tid := 2, status := .BLOCKED, priority := 40, init_priority := 40, wakeup := 3 }
  else if n = 2 then
    { tid := 3, status := .BLOCKED, priority := 25, init_priority := 25, wakeup := 10 }
  else if n = 3 then
    { tid := 4, status := .READY, priority := 30, init_priority := 30 }
  else
    { tid := 5, status := .BLOCKED, priority := 0, init_priority := 0 }

/-- Concrete kernel state built over thrW. -/
def sW : KState :=
  { thr := thrW, running := 0, idle := 4, initial := 0,
    ready_list := [3], sleep_list := [1, 2], destruction_req := [],
    lockHolder := fun _ => 3, next_tid := 5,
    idle_ticks := 0, kernel_ticks := 0, user_ticks := 0, thread_ticks := 0,
    intr_level := true, yield_on_return := false, freed := [] }

/-- Concrete state with a pending destruction request (page 7) used for
the deferred-destruction theorems: thread 0 runs, thread 1 is ready. -/
def thrX : Nat → Thread := fun n =>
  if n = 0 then { tid := 1, status := .RUNNING, priority := 10 }
  else if n = 1 then { tid := 2, status := .READY, priority := 5 }
  else { tid := 3, status := .BLOCKED, priority := 0 }

/-- Concrete kernel state built over thrX with destruction_req = [7]. -/
def cex3 : KState :=
  { thr := thrX, running := 0, idle := 4, initial := 3,
    ready_list := [1], sleep_list := [], destruction_req := [7],
    lockHolder := fun _ => 0, next_tid := 3,
    idle_ticks := 0, kernel_ticks := 0, user_ticks := 0, thread_ticks := 0,
    intr_level := false, yield_on_return := false, freed := [] }

/-! Projections of updThr. -/

@[simp] theorem updThr_thr (s : KState) (t : Nat) (f : Thread → Thread) (x : Nat) :
    (updThr s t f).thr x = if x = t then f (s.thr x) else s.thr x := rfl

@[simp] theorem updThr_running (s : KState) (t : Nat) (f : Thread → Thread) :
    (updThr s t f).running = s.running := rfl

@[simp] theorem updThr_idle (s : KState) (t : Nat) (f : Thread → Thread) :
    (updThr s t f).idle = s.idle := rfl

@[simp] theorem updThr_initial (s : KState) (t : Nat) (f : Thread → Thread) :
    (updThr s t f).initial = s.initial := rfl

@[simp] theorem updThr_ready (s : KState) (t : Nat) (f : Thread → Thread) :
    (updThr s t f).ready_list = s.ready_list := rfl

@[simp] theorem updThr_sleep (s : KState) (t : Nat) (f : Thread → Thread) :
    (updThr s t f).sleep_list = s.sleep_list := rfl

@[simp] theorem updThr_destruction (s : KState) (t : Nat) (f : Thread → Thread) :
    (updThr s t f).destruction_req = s.destruction_req := rfl

@[simp] theorem updThr_lockHolder (s : KState) (t : Nat) (f : Thread → Thread) :
    (updThr s t f).lockHolder = s.lockHolder := rfl

@[simp] theorem updThr_freed (s : KState) (t : Nat) (f : Thread → Thread) :
    (updThr s t f).freed = s.freed := rfl

@[simp] theorem updThr_intr (s : KState) (t : Nat) (f : Thread → Thread) :
    (updThr s t f).intr_level = s.intr_level := rfl

/-! Lemmas on the modelled list library, over an arbitrary integer key. -/

theorem mem_insert_ordered (k : Nat → Int) (x y : Nat) (l : List Nat) :
    y ∈ list_insert_ordered (fun a b => decide (k b < k a)) x l ↔ y = x ∨ y ∈ l := by
  induction l with
  | nil => simp [list_insert_ordered]
  | cons z zs ih =>
    simp only [list_insert_ordered]
    split
    · simp [List.mem_cons]
    · simp only [List.mem_cons, ih]
      tauto

theorem head_insert_ordered (k : Nat → Int) (x m : Nat) (l : List Nat)
    (h : (list_insert_ordered (fun a b => decide (k b < k a)) x l).head? = some m) :
    k x ≤ k m := by
  cases l with
  | nil =>
    simp [list_insert_ordered] at h
    subst h
    exact le_refl _
  | cons z zs =>
    simp only [list_insert_ordered] at h
    split at h
    · simp at h
      subst h
      exact le_refl _
    · rename_i hnlt
      simp at h hnlt
      subst h
      exact hnlt

theorem pairwise_insert_ordered (k : Nat → Int) (x : Nat) (l : List Nat)
    (h : l.Pairwise (fun a b => k b ≤ k a)) :
    (list_insert_ordered (fun a b => decide (k b < k a)) x l).Pairwise
      (fun a b => k b ≤ k a) := by
  induction l with
  | nil => simp [list_insert_ordered]
  | cons z zs ih =>
    rcases List.pairwise_cons.1 h with ⟨hz, hzs⟩
    simp only [list_insert_ordered]
    split
    · rename_i hlt
      simp at hlt
      refine List.pairwise_cons.2 ⟨?_, h⟩
      intro y hy
      rcases List.mem_cons.1 hy with rfl | hy
      · exact le_of_lt hlt
      · exact le_trans (hz y hy) (le_of_lt hlt)
    · rename_i hnlt
      simp at hnlt
      refine List.pairwise_cons.2 ⟨?_, ih hzs⟩
      intro y hy
      rcases (mem_insert_ordered k x y zs).1 hy with rfl | hy
      · exact hnlt
      · exact hz y hy

theorem insert_ordered_decomp (k : Nat → Int) (x : Nat) (l : List Nat)
    (h : l.Pairwise (fun a b => k b ≤ k a)) :
    ∃ l1 l2, list_insert_ordered (fun a b => decide (k b < k a)) x l = l1 ++ x :: l2
      ∧ l = l1 ++ l2
      ∧ (∀ y ∈ l1, k x ≤ k y)
      ∧ (∀ y ∈ l2, k y < k x) := by
  induction l with
  | nil => exact ⟨[], [], by simp [list_insert_ordered], by simp, by simp, by simp⟩
  | cons z zs ih =>
    rcases List.pairwise_cons.1 h with ⟨hz, hzs⟩
    simp only [list_insert_ordered]
    split
    · rename_i hlt
      simp at hlt
      refine ⟨[], z :: zs, by simp, by simp, by simp, ?_⟩
      intro y hy
      rcases List.mem_cons.1 hy with rfl | hy
      · exact hlt
      · exact lt_of_le_of_lt (hz y hy) hlt
    · rename_i hnlt
      simp at hnlt
      rcases ih hzs with ⟨l1, l2, he, hl, h1, h2⟩
      refine ⟨z :: l1, l2, by simp [he], by simp [hl], ?_, h2⟩
      intro y hy
      rcases List.mem_cons.1 hy with rfl | hy
      · exact hnlt
      · exact h1 y hy

theorem mem_foldl_insert (k : Nat → Int) (l acc : List Nat) (y : Nat) :
    y ∈ l.foldl (fun a x => list_insert_ordered (fun a b => decide (k b < k a)) x a) acc
      ↔ y ∈ acc ∨ y ∈ l := by
  induction l generalizing acc with
  | nil => simp
  | cons z zs ih =>
    simp only [List.foldl_cons]
    rw [ih, mem_insert_ordered]
    simp only [List.mem_cons]
    tauto

theorem pairwise_foldl_insert (k : Nat → Int) (l acc : List Nat)
    (h : acc.Pairwise (fun a b => k b ≤ k a)) :
    (l.foldl (fun a x => list_insert_ordered (fun a b => decide (k b < k a)) x a)
        acc).Pairwise (fun a b => k b ≤ k a) := by
  induction l generalizing acc with
  | nil => simpa using h
  | cons z zs ih => exact ih _ (pairwise_insert_ordered k z acc h)

theorem sort_head_max (k : Nat → Int) (l : List Nat) (m : Nat) (rest : List Nat)
    (h : l.foldl (fun a x => list_insert_ordered (fun a b => decide (k b < k a)) x a) []
        = m :: rest) :
    ∀ d ∈ l, k d ≤ k m := by
  intro d hd
  have hmem : d ∈ m :: rest := by
    rw [← h]
    exact (mem_foldl_insert k l [] d).2 (Or.inr hd)
  have hpw : (m :: rest).Pairwise (fun a b => k b ≤ k a) := by
    rw [← h]
    exact pairwise_foldl_insert k l [] (by simp)
  rcases List.mem_cons.1 hmem with rfl | hmem
  · exact le_refl _
  · exact (List.pairwise_cons.1 hpw).1 d hmem

/-! Lemmas on donorsMax. -/

theorem init_le_donorsMax (s : KState) (init : Int) (ds : List Nat) :
    init ≤ donorsMax s init ds := by
  induction ds with
  | nil => exact le_refl _
  | cons d ds ih =>
    simp only [donorsMax, List.foldr_cons]
    exact le_trans ih (le_max_right _ _)

theorem mem_le_donorsMax (s : KState) (init : Int) (ds : List Nat) (d : Nat)
    (h : d ∈ ds) : (s.thr d).priority ≤ donorsMax s init ds := by
  induction ds with
  | nil => cases h
  | cons e es ih =>
    rcases List.mem_cons.1 h with rfl | h
    · exact le_max_left _ _
    · exact le_trans (ih h) (le_max_right _ _)

theorem donorsMax_le (s : KState) (init : Int) (ds : List Nat) (b : Int)
    (h1 : init ≤ b) (h2 : ∀ d ∈ ds, (s.thr d).priority ≤ b) :
    donorsMax s init ds ≤ b := by
  induction ds with
  | nil => exact h1
  | cons e es ih =>
    simp only [donorsMax, List.foldr_cons]
    exact max_le (h2 e (List.mem_cons_self e es)) (ih fun d hd => h2 d (List.mem_cons_of_mem e hd))

/-! Lemmas on the donation walk. -/

theorem donChain_updThr_priority (s : KState) (y : Nat) (pr : Int) (fuel t : Nat) :
    donChain (updThr s y (fun th => { th with priority := pr })) fuel t
      = donChain s fuel t := by
  induction fuel generalizing t with
  | zero => rfl
  | succ fuel ih =>
    simp only [donChain, updThr_thr, updThr_lockHolder]
    have hw : ((if t = y then { s.thr t with priority := pr } else s.thr t) :
        Thread).wait_on_lock = (s.thr t).wait_on_lock := by
      split <;> rfl
    rw [hw]
    cases hwl : (s.thr t).wait_on_lock with
    | none => rfl
    | some l => simp [ih]

theorem donateLoop_thr (pr : Int) (fuel t : Nat) (s : KState) (x : Nat) :
    (donateLoop pr fuel t s).thr x
      = if x ∈ donChain s fuel t then { s.thr x with priority := pr }
        else s.thr x := by
  induction fuel generalizing t s with
  | zero => simp [donateLoop, donChain]
  | succ fuel ih =>
    simp only [donateLoop, donChain]
    cases hwl : (s.thr t).wait_on_lock with
    | none => simp
    | some l =>
      simp only []
      rw [ih, donChain_updThr_priority]
      by_cases hx : x = s.lockHolder l
      · subst hx
        simp only [List.mem_cons, true_or, if_pos, updThr_thr, if_pos rfl]
        split <;> rfl
      · simp [List.mem_cons, hx]

theorem donateLoop_frame (pr : Int) (fuel t : Nat) (s : KState) :
    (donateLoop pr fuel t s).ready_list = s.ready_list
    ∧ (donateLoop pr fuel t s).sleep_list = s.sleep_list
    ∧ (donateLoop pr fuel t s).destruction_req = s.destruction_req
    ∧ (donateLoop pr fuel t s).running = s.running := by
  induction fuel generalizing t s with
  | zero => exact ⟨rfl, rfl, rfl, rfl⟩
  | succ fuel ih =>
    simp only [donateLoop]
    cases hwl : (s.thr t).wait_on_lock with
    | none => exact ⟨rfl, rfl, rfl, rfl⟩
    | some l =>
      simp only []
      rcases ih (s.lockHolder l)
        (updThr s (s.lockHolder l) (fun th => { th with priority := pr })) with
        ⟨h1, h2, h3, h4⟩
      exact ⟨h1, h2, h3, h4⟩

theorem donChain_length_le (s : KState) (fuel t : Nat) :
    (donChain s fuel t).length ≤ fuel := by
  induction fuel generalizing t with
  | zero => simp [donChain]
  | succ fuel ih =>
    simp only [donChain]
    cases hwl : (s.thr t).wait_on_lock with
    | none => simp
    | some l =>
      simp only [List.length_cons]
      exact Nat.succ_le_succ (ih _)

/-- C2: donate_priority walks the chain t.wait_on_lock.holder for at most 8
steps, assigns each visited holder the donor's priority as read at entry
(unconditionally), stops at the first thread without a wait_on_lock or at
depth 8 (the visited sequence is donChain, whose very definition cuts the
walk at the first none and at fuel 8), and touches nothing else; the
hypothesis is the claim's acyclicity assumption on the chain. -/
theorem C2_donate_priority_walk (s : KState)
    (hacyc : (s.running :: donChain s 8 s.running).Nodup) :
    (donChain s 8 s.running).length ≤ 8
    ∧ (∀ h ∈ donChain s 8 s.running,
        ((donate_priority s).thr h).priority = (s.thr s.running).priority)
    ∧ (∀ x, x ∉ donChain s 8 s.running → (donate_priority s).thr x = s.thr x)
    ∧ (∀ x, ((donate_priority s).thr x).wait_on_lock = (s.thr x).wait_on_lock) := by
  refine ⟨donChain_length_le s 8 s.running, ?_, ?_, ?_⟩
  · intro h hh
    simp only [donate_priority]
    rw [donateLoop_thr]
    simp [hh]
  · intro x hx
    simp only [donate_priority]
    rw [donateLoop_thr]
    simp [hx]
  · intro x
    simp only [donate_priority]
    rw [donateLoop_thr]
    split <;> rfl

/-- Witness for C2 at the concrete state sW: the chain 0 → lock 0 → thread 3
is acyclic, and the visited holder 3 ends with the donor's priority. -/
theorem C2_donate_priority_walk_w :
    (sW.running :: donChain sW 8 sW.running).Nodup
    ∧ ((donate_priority sW).thr 3).priority = (sW.thr sW.running).priority :=
  ⟨by decide, (C2_donate_priority_walk sW (by decide)).2.1 3 (by decide)⟩

/-- C10: donate_priority writes only the priority fields of the visited
holders: the donor's own priority is unchanged (under the claim's acyclic
chain, i.e. the donor is not among the visited holders), every thread's
init_priority, wait_on_lock and donations are unchanged, the ready, sleep
and destruction queues are unchanged, and every thread off the visited
chain is entirely unchanged. -/
theorem C10_donate_priority_frame (s : KState)
    (hself : s.running ∉ donChain s 8 s.running) :
    ((donate_priority s).thr s.running).priority = (s.thr s.running).priority
    ∧ (∀ x, ((donate_priority s).thr x).init_priority = (s.thr x).init_priority
        ∧ ((donate_priority s).thr x).wait_on_lock = (s.thr x).wait_on_lock
        ∧ ((donate_priority s).thr x).donations = (s.thr x).donations)
    ∧ (donate_priority s).ready_list = s.ready_list
    ∧ (donate_priority s).sleep_list = s.sleep_list
    ∧ (donate_priority s).destruction_req = s.destruction_req
    ∧ (∀ x, x ∉ donChain s 8 s.running → (donate_priority s).thr x = s.thr x) := by
  rcases donateLoop_frame ((s.thr s.running).priority) 8 s.running s with ⟨h1, h2, h3, _⟩
  refine ⟨?_, ?_, h1, h2, h3, ?_⟩
  · simp only [donate_priority]
    rw [donateLoop_thr]
    simp [hself]
  · intro x
    simp only [donate_priority]
    rw [donateLoop_thr]
    split <;> exact ⟨rfl, rfl, rfl⟩
  · intro x hx
    simp only [donate_priority]
    rw [donateLoop_thr]
    simp [hx]

/-- Witness for C10 at the concrete state sW. -/
theorem C10_donate_priority_frame_w :
    sW.running ∉ donChain sW 8 sW.running
    ∧ ((donate_priority sW).thr sW.running).priority
        = (sW.thr sW.running).priority :=
  ⟨by decide, (C10_donate_priority_frame sW (by decide)).1⟩

/-! Lemmas on schedule / do_schedule / thread_block. -/

theorem schedule_freed (s : KState) : (schedule s).freed = s.freed := by
  simp only [schedule]
  split
  · split <;> rfl
  · rfl

theorem schedule_running_eq (s : KState) :
    (schedule s).running = s.running ∨ (schedule s).running = (next_thread_to_run s).1 := by
  simp only [schedule]
  split
  · split <;> exact Or.inr rfl
  · exact Or.inl rfl

theorem schedule_destruction_sub (s : KState) (p : Nat)
    (hp : p ∈ (schedule s).destruction_req) :
    p ∈ s.destruction_req ∨ p = s.running := by
  simp only [schedule] at hp
  split at hp
  · split at hp
    · simp only [List.mem_append, List.mem_singleton] at hp
      exact hp
    · exact Or.inl hp
  · exact Or.inl hp

theorem schedule_destruction_of_not_dying (s : KState)
    (h : (s.thr s.running).status ≠ .DYING) :
    (schedule s).destruction_req = s.destruction_req := by
  simp only [schedule]
  split
  · rename_i hne
    split
    · rename_i hd
      exfalso
      rw [updThr_thr, if_neg hne] at hd
      exact h hd.1
    · rfl
  · rfl

/-- C3 amended: entries into the scheduler that go through do_schedule
(thread_yield, thread_exit, the yield inside the preemption check) free
every page queued on the destruction list before selecting the next
thread — afterwards only the thread that was running at entry can sit on
the queue — while the entry reached through thread_block calls schedule
directly and frees nothing. -/
theorem C3_do_schedule_flushes (s : KState) (st : Status) :
    (∀ p ∈ s.destruction_req, p ∈ (do_schedule s st).freed)
    ∧ (∀ p ∈ (do_schedule s st).destruction_req, p = s.running)
    ∧ (thread_block s).freed = s.freed
    ∧ (thread_block s).destruction_req = s.destruction_req := by
  refine ⟨?_, ?_, ?_, ?_⟩
  · intro p hp
    simp only [do_schedule]
    rw [schedule_freed]
    simp [hp]
  · intro p hp
    simp only [do_schedule] at hp
    rcases schedule_destruction_sub _ p hp with h | h
    · simp at h
    · simpa using h
  · simp only [thread_block]
    rw [schedule_freed]
    rfl
  · simp only [thread_block]
    rw [schedule_destruction_of_not_dying]
    · rfl
    · simp

/-- Witness for the amended C3 at cex3: the queued page 7 is freed by the
do_schedule entry. -/
theorem C3_do_schedule_flushes_w :
    7 ∈ cex3.destruction_req ∧ 7 ∈ (do_schedule cex3 Status.READY).freed :=
  ⟨by decide, (C3_do_schedule_flushes cex3 Status.READY).1 7 (by decide)⟩

/-- C3 counterexample: at cex3 (one page, 7, queued for destruction), the
scheduler entry reached through thread_block selects the next thread —
running becomes thread 1 — while page 7 is neither freed nor removed from
the destruction queue, refuting the claim that every scheduling decision,
including the one reached through thread_block, first frees every queued
page. -/
theorem C3_thread_block_no_flush_cex :
    (thread_block cex3).running = 1
    ∧ (thread_block cex3).destruction_req = [7]
    ∧ (thread_block cex3).freed = [] := by
  refine ⟨?_, ?_, ?_⟩ <;> decide

/-! Lemmas on thread_unblock, schedule's ready list, and thread_yield. -/

theorem thread_unblock_thr (s : KState) (t x : Nat) :
    (thread_unblock s t).thr x
      = if x = t then { s.thr x with status := .READY } else s.thr x := rfl

theorem thread_unblock_priority (s : KState) (t x : Nat) :
    ((thread_unblock s t).thr x).priority = (s.thr x).priority := by
  rw [thread_unblock_thr]
  split <;> rfl

theorem thread_unblock_wakeup (s : KState) (t x : Nat) :
    ((thread_unblock s t).thr x).wakeup = (s.thr x).wakeup := by
  rw [thread_unblock_thr]
  split <;> rfl

theorem thread_unblock_ready (s : KState) (t : Nat) :
    (thread_unblock s t).ready_list
      = list_insert_ordered (thread_compare_priority s) t s.ready_list := rfl

theorem thread_unblock_sleep (s : KState) (t : Nat) :
    (thread_unblock s t).sleep_list = s.sleep_list := rfl

theorem thread_unblock_running (s : KState) (t : Nat) :
    (thread_unblock s t).running = s.running := rfl

theorem readySorted_unblock (s : KState) (t : Nat) (hs : readySorted s) :
    readySorted (thread_unblock s t) := by
  have h1 : (thread_unblock s t).ready_list.Pairwise
      (fun a b => (s.thr b).priority ≤ (s.thr a).priority) := by
    rw [thread_unblock_ready]
    exact pairwise_insert_ordered (fun x => (s.thr x).priority) t s.ready_list hs
  exact h1.imp fun h => by
    rw [thread_unblock_priority, thread_unblock_priority]
    exact h

theorem next_thread_to_run_snd (s : KState) :
    (next_thread_to_run s).2 = s.ready_list.tail := by
  cases h : s.ready_list <;> simp [next_thread_to_run, h]

theorem schedule_ready (s : KState) : (schedule s).ready_list = s.ready_list.tail := by
  simp only [schedule]
  split
  · split
    · exact next_thread_to_run_snd s
    · exact next_thread_to_run_snd s
  · exact next_thread_to_run_snd s

theorem do_schedule_ready (s : KState) (st : Status) :
    (do_schedule s st).ready_list = s.ready_list.tail := by
  simp only [do_schedule]
  exact schedule_ready _

theorem schedule_thr (s : KState) (x : Nat) :
    (schedule s).thr x
      = if x = (next_thread_to_run s).1 then { s.thr x with status := .RUNNING }
        else s.thr x := by
  simp only [schedule]
  split
  · split <;> rfl
  · rfl

theorem do_schedule_thr_priority (s : KState) (st : Status) (x : Nat) :
    ((do_schedule s st).thr x).priority = (s.thr x).priority := by
  simp only [do_schedule]
  rw [schedule_thr]
  split
  · rw [updThr_thr]
    split <;> rfl
  · rw [updThr_thr]
    split <;> rfl

theorem thread_yield_thr_priority (s : KState) (x : Nat) :
    ((thread_yield s).thr x).priority = (s.thr x).priority := by
  simp only [thread_yield]
  split
  · exact do_schedule_thr_priority _ _ x
  · exact do_schedule_thr_priority _ _ x

theorem thread_yield_ready_of_ne (s : KState) (h : s.running ≠ s.idle) :
    (thread_yield s).ready_list
      = (list_insert_ordered (thread_compare_priority s) s.running s.ready_list).tail := by
  simp only [thread_yield, if_pos h]
  exact do_schedule_ready _ _

theorem thread_yield_ready_of_eq (s : KState) (h : s.running = s.idle) :
    (thread_yield s).ready_list = s.ready_list.tail := by
  have h' : ¬ s.running ≠ s.idle := fun hne => hne h
  simp only [thread_yield, if_neg h']
  exact do_schedule_ready _ _

theorem readySorted_yield (s : KState) (hs : readySorted s) :
    readySorted (thread_yield s) := by
  have base : (thread_yield s).ready_list.Pairwise
      (fun a b => (s.thr b).priority ≤ (s.thr a).priority) := by
    by_cases h : s.running = s.idle
    · rw [thread_yield_ready_of_eq s h]
      exact List.Pairwise.sublist (List.tail_sublist _) hs
    · rw [thread_yield_ready_of_ne s h]
      exact List.Pairwise.sublist (List.tail_sublist _)
        (pairwise_insert_ordered (fun x => (s.thr x).priority) s.running s.ready_list hs)
  exact base.imp fun h => by
    rw [thread_yield_thr_priority, thread_yield_thr_priority]
    exact h

/-- C5: for a BLOCKED thread t, thread_unblock inserts t into the ready
queue at the position given by descending priority order (the ordered
insertion with the source comparator), sets its status to READY, restores
the caller's interrupt level on exit, and does not switch away from the
calling thread (no yield, running is unchanged); ordered insertion also
preserves the sortedness of the ready queue. -/
theorem C5_thread_unblock (s : KState) (t : Nat)
    (hb : (s.thr t).status = .BLOCKED) :
    ((thread_unblock s t).thr t).status = .READY
    ∧ (thread_unblock s t).ready_list
        = list_insert_ordered (thread_compare_priority s) t s.ready_list
    ∧ (thread_unblock s t).intr_level = s.intr_level
    ∧ (thread_unblock s t).running = s.running
    ∧ (readySorted s → readySorted (thread_unblock s t)) := by
  refine ⟨?_, rfl, rfl, rfl, readySorted_unblock s t⟩
  rw [thread_unblock_thr]
  simp

/-- Witness for C5 at sW: thread 1 is BLOCKED and becomes READY. -/
theorem C5_thread_unblock_w :
    (sW.thr 1).status = Status.BLOCKED
    ∧ ((thread_unblock sW 1).thr 1).status = Status.READY :=
  ⟨by decide, (C5_thread_unblock sW 1 (by decide)).1⟩

/-- C8: starting from a ready queue sorted by non-increasing priority,
thread_unblock leaves it sorted and places the new element after every
queued element of greater-or-equal priority and before every element of
strictly smaller priority (hence FIFO order among equal priorities), and
thread_yield also leaves the ready queue sorted. -/
theorem C8_ready_queue_sorted (s : KState) (t : Nat) (hs : readySorted s) :
    readySorted (thread_unblock s t)
    ∧ (∃ l1 l2, (thread_unblock s t).ready_list = l1 ++ t :: l2
        ∧ s.ready_list = l1 ++ l2
        ∧ (∀ y ∈ l1, (s.thr t).priority ≤ (s.thr y).priority)
        ∧ (∀ y ∈ l2, (s.thr y).priority < (s.thr t).priority))
    ∧ readySorted (thread_yield s) := by
  refine ⟨readySorted_unblock s t hs, ?_, readySorted_yield s hs⟩
  rw [thread_unblock_ready]
  exact insert_ordered_decomp (fun x => (s.thr x).priority) t s.ready_list hs

/-- Witness for C8 at sW. -/
theorem C8_ready_queue_sorted_w :
    readySorted sW ∧ readySorted (thread_unblock sW 1) := by
  refine ⟨?_, ?_⟩
  · unfold readySorted
    decide
  · exact (C8_ready_queue_sorted sW 1 (by unfold readySorted; decide)).1

/-- C9: a timer tick increments exactly one of idle_ticks, user_ticks,
kernel_ticks — idle_ticks precisely when the current thread is the idle
thread, user_ticks when it has a user page table, kernel_ticks otherwise
— increments thread_ticks by one (no 32-bit wraparound under the stated
bound), and requests a deferred yield exactly when the incremented
thread_ticks reaches TIME_SLICE = 4. -/
theorem C9_thread_tick (s : KState)
    (hy : s.yield_on_return = false)
    (hov : s.thread_ticks + 1 < 4294967296) :
    (thread_tick s).idle_ticks
        = s.idle_ticks + (if s.running = s.idle then 1 else 0)
    ∧ (thread_tick s).user_ticks
        = s.user_ticks
          + (if s.running ≠ s.idle ∧ (s.thr s.running).pml4 ≠ none then 1 else 0)
    ∧ (thread_tick s).kernel_ticks
        = s.kernel_ticks
          + (if s.running ≠ s.idle ∧ (s.thr s.running).pml4 = none then 1 else 0)
    ∧ (thread_tick s).thread_ticks = s.thread_ticks + 1
    ∧ ((thread_tick s).yield_on_return = true ↔ TIME_SLICE ≤ s.thread_ticks + 1) := by
  have hmod : (s.thread_ticks + 1) % 4294967296 = s.thread_ticks + 1 :=
    Nat.mod_eq_of_lt hov
  by_cases h1 : s.running = s.idle
  · simp only [thread_tick, if_pos h1, hmod]
    by_cases h3 : TIME_SLICE ≤ s.thread_ticks + 1
    · simp [h3, h1]
    · simp [h3, h1, hy]
  · by_cases h2 : (s.thr s.running).pml4 = none
    · have h2' : ¬ ((s.thr s.running).pml4 ≠ none) := fun hne => hne h2
      simp only [thread_tick, if_neg h1, if_neg h2', hmod]
      by_cases h3 : TIME_SLICE ≤ s.thread_ticks + 1
      · simp [h3, h1, h2]
      · simp [h3, h1, h2, hy]
    · have h2' : (s.thr s.running).pml4 ≠ none := h2
      simp only [thread_tick, if_neg h1, if_pos h2', hmod]
      by_cases h3 : TIME_SLICE ≤ s.thread_ticks + 1
      · simp [h3, h1, h2]
      · simp [h3, h1, h2, hy]

/-- Witness for C9 at sW. -/
theorem C9_thread_tick_w :
    sW.yield_on_return = false
    ∧ sW.thread_ticks + 1 < 4294967296
    ∧ (thread_tick sW).thread_ticks = sW.thread_ticks + 1 :=
  ⟨rfl, by decide, (C9_thread_tick sW rfl (by decide)).2.2.2.1⟩

/-! Lemmas on thread_awake. -/

theorem thread_unblock_status_ready (s : KState) (t x : Nat)
    (h : (s.thr x).status = .READY) :
    ((thread_unblock s t).thr x).status = .READY := by
  rw [thread_unblock_thr]
  split
  · rfl
  · exact h

theorem thread_unblock_self_status (s : KState) (t : Nat) :
    ((thread_unblock s t).thr t).status = .READY := by
  rw [thread_unblock_thr]
  simp

theorem thread_unblock_mem_ready (s : KState) (t x : Nat) (h : x ∈ s.ready_list) :
    x ∈ (thread_unblock s t).ready_list := by
  rw [thread_unblock_ready]
  exact (mem_insert_ordered (fun y => (s.thr y).priority) t x s.ready_list).2 (Or.inr h)

theorem thread_unblock_self_mem (s : KState) (t : Nat) :
    t ∈ (thread_unblock s t).ready_list := by
  rw [thread_unblock_ready]
  exact (mem_insert_ordered (fun y => (s.thr y).priority) t t s.ready_list).2 (Or.inl rfl)

theorem awakeGo_fst (now : Int) (l : List Nat) (s : KState) :
    (awakeGo now l s).1 = l.filter (fun t => decide (now < (s.thr t).wakeup)) := by
  induction l generalizing s with
  | nil => rfl
  | cons t rest ih =>
    simp only [awakeGo]
    split
    · rename_i h
      have hne : ¬ (now < (s.thr t).wakeup) := not_lt.2 h
      rw [List.filter_cons, if_neg (by simp [hne]), ih]
      apply List.filter_congr
      intro x hx
      rw [thread_unblock_wakeup]
    · rename_i h
      have hlt : now < (s.thr t).wakeup := not_le.1 h
      rw [List.filter_cons, if_pos (by simp [hlt]), ih]

theorem awakeGo_status_ready (now : Int) (l : List Nat) (s : KState) (x : Nat)
    (h : (s.thr x).status = .READY) :
    (((awakeGo now l s).2).thr x).status = .READY := by
  induction l generalizing s with
  | nil => exact h
  | cons t rest ih =>
    simp only [awakeGo]
    split
    · exact ih _ (thread_unblock_status_ready s t x h)
    · exact ih s h

theorem awakeGo_mem_ready (now : Int) (l : List Nat) (s : KState) (x : Nat)
    (h : x ∈ s.ready_list) :
    x ∈ ((awakeGo now l s).2).ready_list := by
  induction l generalizing s with
  | nil => exact h
  | cons t rest ih =>
    simp only [awakeGo]
    split
    · exact ih _ (thread_unblock_mem_ready s t x h)
    · exact ih s h

theorem awakeGo_wakes (now : Int) (l : List Nat) (t : Nat) :
    ∀ s : KState, t ∈ l → (s.thr t).wakeup ≤ now →
      (((awakeGo now l s).2).thr t).status = .READY
      ∧ t ∈ ((awakeGo now l s).2).ready_list := by
  induction l with
  | nil =>
    intro s hl _
    cases hl
  | cons u rest ih =>
    intro s hl hw
    simp only [awakeGo]
    rcases List.mem_cons.1 hl with rfl | hl
    · rw [if_pos hw]
      exact ⟨awakeGo_status_ready now rest _ t (thread_unblock_self_status s t),
             awakeGo_mem_ready now rest _ t (thread_unblock_self_mem s t)⟩
    · by_cases hc : (s.thr u).wakeup ≤ now
      · rw [if_pos hc]
        exact ih _ hl (by rw [thread_unblock_wakeup]; exact hw)
      · rw [if_neg hc]
        exact ih s hl hw

/-- C6: thread_awake(now) removes from the sleep queue exactly the threads
whose wakeup tick has passed, keeping the others in place and in order
(the remaining sleep queue is the filter of the original), and every
removed thread has been unblocked: its status is READY and it sits in the
ready queue.  The single scan is the structure of awakeGo.  The hypothesis
is the ASSERT of thread_unblock: sleeping threads are BLOCKED. -/
theorem C6_thread_awake (s : KState) (now : Int)
    (hb : ∀ t ∈ s.sleep_list, (s.thr t).status = .BLOCKED) :
    (thread_awake s now).sleep_list
        = s.sleep_list.filter (fun t => decide (now < (s.thr t).wakeup))
    ∧ (∀ t ∈ s.sleep_list, (s.thr t).wakeup ≤ now →
        ((thread_awake s now).thr t).status = .READY
        ∧ t ∈ (thread_awake s now).ready_list) := by
  constructor
  · exact awakeGo_fst now s.sleep_list s
  · intro t ht hw
    exact awakeGo_wakes now s.sleep_list t s ht hw

/-- Witness for C6 at sW with now = 5: thread 1 (wakeup 3) is woken,
thread 2 (wakeup 10) stays asleep. -/
theorem C6_thread_awake_w :
    (∀ t ∈ sW.sleep_list, (sW.thr t).status = Status.BLOCKED)
    ∧ (thread_awake sW 5).sleep_list
        = sW.sleep_list.filter (fun t => decide ((5 : Int) < (sW.thr t).wakeup)) :=
  ⟨by decide, (C6_thread_awake sW 5 (by decide)).1⟩

/-- C1: the claim fails on the source's refresh_priority.  The donation
sort hands donation_elem-threaded nodes to thread_compare_priority, whose
list_entry(..., elem) recovery makes the sort key a layout-dependent
mis-offset read, modelled by the oracle comparator of refresh_priority.
At sW (current thread 0 with init_priority 20, donor 1 with priority 40,
donor 2 with priority 25), under the oracle behavior that orders donor 2
first, refresh_priority leaves the sorted donations as [2, 1] — so the
list_front donor is 2, not a donor of maximal priority — and settles the
current thread's priority at 25, while the claim demands
max(20, 40, 25) = 40 and a maximal front donor. -/
theorem C1_refresh_priority_misorder :
    ((refresh_priority (fun a _ => decide (a = 2)) sW).thr sW.running).priority = 25
    ∧ ((refresh_priority (fun a _ => decide (a = 2)) sW).thr sW.running).donations
        = [2, 1]
    ∧ donorsMax sW (sW.thr sW.running).init_priority
        (sW.thr sW.running).donations = 40 := by
  refine ⟨?_, ?_, ?_⟩ <;> decide

/-! Front-of-queue lemmas on schedule / do_schedule / thread_yield. -/

theorem next_thread_to_run_fst (s : KState) (f : Nat) (rest : List Nat)
    (h : s.ready_list = f :: rest) : (next_thread_to_run s).1 = f := by
  simp [next_thread_to_run, h]

theorem schedule_running_of_front (s : KState) (f : Nat) (rest : List Nat)
    (h : s.ready_list = f :: rest) (hne : f ≠ s.running) :
    (schedule s).running = f := by
  have hfst : (next_thread_to_run s).1 = f := next_thread_to_run_fst s f rest h
  have hcond : s.running ≠ (next_thread_to_run s).1 := by
    rw [hfst]
    exact fun he => hne he.symm
  simp only [schedule]
  rw [if_pos hcond]
  exact hfst

theorem do_schedule_running_of_front (s : KState) (st : Status) (f : Nat) (rest : List Nat)
    (h : s.ready_list = f :: rest) (hne : f ≠ s.running) :
    (do_schedule s st).running = f := by
  simp only [do_schedule]
  exact schedule_running_of_front
    (updThr { s with freed := s.freed ++ s.destruction_req, destruction_req := [] }
      s.running (fun th => { th with status := st })) f rest h hne

theorem do_schedule_thr_of_front (s : KState) (st : Status) (f : Nat) (rest : List Nat)
    (x : Nat) (h : s.ready_list = f :: rest) :
    (do_schedule s st).thr x
      = if x = f
        then { (if x = s.running then { s.thr x with status := st } else s.thr x)
               with status := .RUNNING }
        else (if x = s.running then { s.thr x with status := st } else s.thr x) := by
  simp only [do_schedule]
  rw [schedule_thr]
  have hfst : (next_thread_to_run (updThr { s with
      freed := s.freed ++ s.destruction_req,
      destruction_req := [] } s.running (fun th => { th with status := st }))).1 = f :=
    next_thread_to_run_fst _ f rest h
  rw [hfst]
  have hthr : (updThr { s with
      freed := s.freed ++ s.destruction_req,
      destruction_req := [] } s.running (fun th => { th with status := st })).thr x
      = if x = s.running then { s.thr x with status := st } else s.thr x := rfl
  rw [hthr]

theorem thread_yield_running_of_front (s : KState) (f : Nat) (rest : List Nat)
    (hcur : s.running ≠ s.idle)
    (h : list_insert_ordered (thread_compare_priority s) s.running s.ready_list = f :: rest)
    (hne : f ≠ s.running) :
    (thread_yield s).running = f := by
  simp only [thread_yield]
  rw [if_pos hcur]
  exact do_schedule_running_of_front ({ { s with intr_level := false } with
      ready_list := list_insert_ordered (thread_compare_priority
        ({ s with intr_level := false } : KState)) s.running
        ({ s with intr_level := false } : KState).ready_list } : KState)
    Status.READY f rest h hne

theorem thread_yield_running_of_front_idle (s : KState) (f : Nat) (rest : List Nat)
    (hcur : ¬ s.running ≠ s.idle) (h : s.ready_list = f :: rest)
    (hne : f ≠ s.running) :
    (thread_yield s).running = f := by
  simp only [thread_yield]
  rw [if_neg hcur]
  exact do_schedule_running_of_front ({ s with intr_level := false } : KState)
    Status.READY f rest h hne

theorem thread_yield_thr_of_front (s : KState) (f : Nat) (rest : List Nat) (x : Nat)
    (hcur : s.running ≠ s.idle)
    (h : list_insert_ordered (thread_compare_priority s) s.running s.ready_list = f :: rest) :
    (thread_yield s).thr x
      = if x = f
        then { (if x = s.running then { s.thr x with status := .READY } else s.thr x)
               with status := .RUNNING }
        else (if x = s.running then { s.thr x with status := .READY } else s.thr x) := by
  simp only [thread_yield]
  rw [if_pos hcur]
  exact do_schedule_thr_of_front ({ { s with intr_level := false } with
      ready_list := list_insert_ordered (thread_compare_priority
        ({ s with intr_level := false } : KState)) s.running
        ({ s with intr_level := false } : KState).ready_list } : KState)
    Status.READY f rest x h

theorem thread_yield_thr_of_front_idle (s : KState) (f : Nat) (rest : List Nat) (x : Nat)
    (hcur : ¬ s.running ≠ s.idle) (h : s.ready_list = f :: rest) :
    (thread_yield s).thr x
      = if x = f
        then { (if x = s.running then { s.thr x with status := .READY } else s.thr x)
               with status := .RUNNING }
        else (if x = s.running then { s.thr x with status := .READY } else s.thr x) := by
  simp only [thread_yield]
  rw [if_neg hcur]
  exact do_schedule_thr_of_front ({ s with intr_level := false } : KState)
    Status.READY f rest x h

/-- C7: thread_create returns TID_ERROR exactly when the allocator returns
no page, and in that case the state is untouched; on success it returns
the freshly allocated tid, the new thread has been unblocked (it is READY,
or already RUNNING after the preemption check switched to it), and the
preemption check guarantees that when the new thread's priority exceeds
the creator's, the creator is no longer the running thread and the thread
now running has priority at least the new thread's.  The hypotheses are
the tid-counter invariant (tids start at 1) and the allocator/queue
disjointness invariants (the running thread is not queued ready; a fresh
page is not a queued or running thread). -/
theorem C7_thread_create (s : KState) (priority : Int) (alloc : Option Nat)
    (htid : 1 ≤ s.next_tid)
    (hrun : s.running ∉ s.ready_list)
    (halloc : ∀ p, alloc = some p → p ∉ s.ready_list ∧ p ≠ s.running) :
    ((thread_create s priority alloc).1 = TID_ERROR ↔ alloc = none)
    ∧ (alloc = none → (thread_create s priority alloc).2 = s)
    ∧ (∀ p, alloc = some p →
        (thread_create s priority alloc).1 = s.next_tid
        ∧ (((thread_create s priority alloc).2.thr p).status = .READY
            ∨ (((thread_create s priority alloc).2.thr p).status = .RUNNING
                ∧ (thread_create s priority alloc).2.running = p))
        ∧ ((s.thr s.running).priority < priority →
            (thread_create s priority alloc).2.running ≠ s.running
            ∧ priority ≤ ((thread_create s priority alloc).2.thr
                ((thread_create s priority alloc).2.running)).priority)) := by
  refine ⟨?_, ?_, ?_⟩
  · cases alloc with
    | none => simp [thread_create]
    | some p =>
      have hfst : (thread_create s priority (some p)).1 = s.next_tid := rfl
      rw [hfst]
      constructor
      · intro hEq
        rw [show TID_ERROR = (-1 : Int) from rfl] at hEq
        omega
      · intro hno
        exact absurd hno (by simp)
  · cases alloc with
    | none =>
      intro _
      rfl
    | some p =>
      intro hno
      exact absurd hno (by simp)
  · intro p hap
    subst hap
    obtain ⟨hp, hpr⟩ := halloc p rfl
    have hred : thread_create s priority (some p)
        = (s.next_tid, thread_test_max_priority (thread_unblock
            ({ updThr s p (fun _ => init_thread priority s.next_tid) with
               next_tid := s.next_tid + 1 }) p)) := rfl
    rw [hred]
    set s1 : KState := { updThr s p (fun _ => init_thread priority s.next_tid) with
        next_tid := s.next_tid + 1 } with hs1def
    set s2 : KState := thread_unblock s1 p with hs2def
    have hs2run : s2.running = s.running := rfl
    have hk1p : (s1.thr p).priority = priority := by
      rw [hs1def]
      simp [updThr_thr, init_thread]
    have hk1x : ∀ x, x ≠ p → (s1.thr x).priority = (s.thr x).priority := by
      intro x hx
      rw [hs1def]
      simp [updThr_thr, hx]
    have hs2ready : s2.ready_list
        = list_insert_ordered (thread_compare_priority s1) p s.ready_list := by
      rw [hs2def]
      exact thread_unblock_ready s1 p
    have hs2pri : ∀ x, (s2.thr x).priority = (s1.thr x).priority := by
      intro x
      rw [hs2def]
      exact thread_unblock_priority s1 p x
    have hs2pstat : (s2.thr p).status = .READY := by
      rw [hs2def]
      exact thread_unblock_self_status s1 p
    have hpmem : p ∈ s2.ready_list := by
      rw [hs2def]
      exact thread_unblock_self_mem s1 p
    cases hr2 : s2.ready_list with
    | nil =>
      rw [hr2] at hpmem
      cases hpmem
    | cons f rest =>
      have hs3 : thread_test_max_priority s2
          = if (s2.thr s2.running).priority < (s2.thr f).priority
            then thread_yield s2 else s2 := by
        simp only [thread_test_max_priority]
        rw [hr2]
      rw [hs3]
      have hfhead : (list_insert_ordered (thread_compare_priority s1) p
          s.ready_list).head? = some f := by
        rw [← hs2ready, hr2]
        rfl
      have hkpf : (s1.thr p).priority ≤ (s1.thr f).priority :=
        head_insert_ordered (fun x => (s1.thr x).priority) p f s.ready_list hfhead
      have hprif : priority ≤ (s2.thr f).priority := by
        rw [hs2pri f, ← hk1p]
        exact hkpf
      have hfmem : f ∈ s2.ready_list := by
        rw [hr2]
        exact List.mem_cons_self f rest
      have hfins : f = p ∨ f ∈ s.ready_list := by
        rw [hs2ready] at hfmem
        exact (mem_insert_ordered (fun x => (s1.thr x).priority) p f s.ready_list).1 hfmem
      have hfne : f ≠ s.running := by
        rcases hfins with rfl | hin
        · exact hpr
        · exact fun he => hrun (he ▸ hin)
      have hpc : (s2.thr s2.running).priority = (s.thr s.running).priority := by
        rw [hs2run, hs2pri s.running]
        exact hk1x s.running (Ne.symm hpr)
      refine ⟨rfl, ?_, ?_⟩
      · by_cases hc : (s2.thr s2.running).priority < (s2.thr f).priority
        · rw [if_pos hc]
          have hnlt : ¬ ((s2.thr f).priority < (s2.thr s2.running).priority) :=
            not_lt.2 (le_of_lt hc)
          by_cases hni : s2.running ≠ s2.idle
          · have h3 : list_insert_ordered (thread_compare_priority s2) s2.running
                s2.ready_list
                = f :: list_insert_ordered (thread_compare_priority s2) s2.running rest := by
              rw [hr2]
              simp only [list_insert_ordered]
              rw [if_neg (by simpa [thread_compare_priority] using hnlt)]
            have hpthr := thread_yield_thr_of_front s2 f
              (list_insert_ordered (thread_compare_priority s2) s2.running rest) p hni h3
            by_cases hpf : p = f
            · right
              constructor
              · rw [hpthr, if_pos hpf]
              · rw [thread_yield_running_of_front s2 f _ hni h3 hfne]
                exact hpf.symm
            · left
              rw [hpthr, if_neg hpf, if_neg (show ¬ p = s2.running from hpr)]
              exact hs2pstat
          · have hpthr := thread_yield_thr_of_front_idle s2 f rest p hni hr2
            by_cases hpf : p = f
            · right
              constructor
              · rw [hpthr, if_pos hpf]
              · rw [thread_yield_running_of_front_idle s2 f rest hni hr2 hfne]
                exact hpf.symm
            · left
              rw [hpthr, if_neg hpf, if_neg (show ¬ p = s2.running from hpr)]
              exact hs2pstat
        · rw [if_neg hc]
          left
          exact hs2pstat
      · intro hprio
        have hc : (s2.thr s2.running).priority < (s2.thr f).priority := by
          rw [hpc]
          exact lt_of_lt_of_le hprio hprif
        rw [if_pos hc]
        by_cases hni : s2.running ≠ s2.idle
        · have hnlt : ¬ ((s2.thr f).priority < (s2.thr s2.running).priority) :=
            not_lt.2 (le_of_lt hc)
          have h3 : list_insert_ordered (thread_compare_priority s2) s2.running s2.ready_list
              = f :: list_insert_ordered (thread_compare_priority s2) s2.running rest := by
            rw [hr2]
            simp only [list_insert_ordered]
            rw [if_neg (by simpa [thread_compare_priority] using hnlt)]
          have hrunf := thread_yield_running_of_front s2 f _ hni h3 hfne
          rw [hrunf]
          refine ⟨hfne, ?_⟩
          rw [thread_yield_thr_priority s2 f, hs2pri f, ← hk1p]
          exact hkpf
        · have hrunf := thread_yield_running_of_front_idle s2 f rest hni hr2 hfne
          rw [hrunf]
          refine ⟨hfne, ?_⟩
          rw [thread_yield_thr_priority s2 f, hs2pri f, ← hk1p]
          exact hkpf

/-- Witness for C7 at sW with a fresh page 9 and priority 50. -/
theorem C7_thread_create_w :
    1 ≤ sW.next_tid ∧ sW.running ∉ sW.ready_list
    ∧ (thread_create sW 50 (some 9)).1 = sW.next_tid :=
  ⟨by decide, by decide,
    ((C7_thread_create sW 50 (some 9) (by decide) (by decide)
      (by intro p hp; cases hp; exact ⟨by decide, by decide⟩)).2.2 9 rfl).1⟩

end PintosThread
